import Mathlib

/-!
A shallow embedding of the token-cache core of this repository
(`src/cache/cache-manager.ts`) together with the collaborator interfaces it
consumes (`CacheKey` serialization and the key manifest, which are specified
but whose source is not part of the embedded file set; those are modelled
from the spec and marked as such).

The storage backend is modelled as an association list from key strings to
wrapped cache entries, in enumeration order.  Time is passed explicitly as
`nowSeconds` (the JS code computes it as the floor of the current epoch
milliseconds over 1000).  JavaScript string splitting is modelled by
character-list splitters with the same semantics as `String.prototype.split`
on the delimiters actually used (`"::"` and `" "`).
-/

/-- Modelled from the spec: the fixed constant key prefix identifying cache
entries owned by this system (exported by the missing `shared.ts`). -/
def CACHE_KEY_PREF : String := "@@auth0spajs@@"

/-- JavaScript truthiness of an optional string value: `undefined` and the
empty string are falsy, every other string is truthy. -/
def jsTruthy : Option String → Bool
  | none => false
  | some s => !(s == "")

/-- Splitter used to model `key.split("::")`: JS semantics, keeping empty
segments, e.g. `"a::::b"` yields `["a", "", "b"]`. -/
def splitColonAux : List Char → List Char → List (List Char)
  | [], cur => [cur.reverse]
  | ':' :: ':' :: rest, cur => cur.reverse :: splitColonAux rest []
  | c :: rest, cur => splitColonAux rest (c :: cur)

/-- `s.split("::")` on strings. -/
def splitColons (s : String) : List String :=
  (splitColonAux s.data []).map (fun cs => String.mk cs)

/-- Splitter used to model `scope.split(" ")`: JS semantics, keeping empty
segments, e.g. `"a  b"` yields `["a", "", "b"]` and `""` yields `[""]`. -/
def splitSpaceAux : List Char → List Char → List (List Char)
  | [], cur => [cur.reverse]
  | ' ' :: rest, cur => cur.reverse :: splitSpaceAux rest []
  | c :: rest, cur => splitSpaceAux rest (c :: cur)

/-- `s.split(" ")` on strings. -/
def splitSpaces (s : String) : List String :=
  (splitSpaceAux s.data []).map (fun cs => String.mk cs)

/-- The claims object of a decoded token, exposing the absolute expiry
claim `exp` (epoch seconds). -/
structure DecodedTokenClaims where
  exp : Int
deriving Repr, DecidableEq

/-- The decoded token structure carried by a cache entry. -/
structure DecodedToken where
  claims : DecodedTokenClaims
deriving Repr, DecidableEq

/-- The logical credential payload handed to `set` (the `CacheEntry` shape
of `shared.ts`, modelled from the spec: it carries `client_id`, `scope`,
`audience`, `expires_in` in seconds, a decoded token exposing `claims.exp`,
the token material itself, and an optional `refresh_token`). -/
structure CacheEntry where
  client_id : String
  audience : String
  scope : String
  expires_in : Int
  decodedToken : DecodedToken
  access_token : String
  id_token : String
  refresh_token : Option String
deriving Repr, DecidableEq

/-- A possibly-narrowed entry body (`Partial<CacheEntry>` in the source):
every field may be absent.  The expiry-narrowing in `get` rewrites a body to
one that holds only `refresh_token`. -/
structure PartialEntry where
  client_id : Option String
  audience : Option String
  scope : Option String
  expires_in : Option Int
  decodedToken : Option DecodedToken
  access_token : Option String
  id_token : Option String
  refresh_token : Option String
deriving Repr, DecidableEq

/-- The full body corresponding to a cache entry: every field present. -/
def CacheEntry.toBody (e : CacheEntry) : PartialEntry :=
  ⟨some e.client_id, some e.audience, some e.scope, some e.expires_in,
    some e.decodedToken, some e.access_token, some e.id_token,
    e.refresh_token⟩

/-- A body holding only a refresh token, as produced by the expiry
narrowing `wrappedEntry.body = { refresh_token: ... }`. -/
def refreshOnlyBody (rt : Option String) : PartialEntry :=
  ⟨none, none, none, none, none, none, none, rt⟩

/-- The persisted unit: an entry body together with an absolute expiry
timestamp in epoch seconds (`WrappedCacheEntry` in the source). -/
structure WrappedCacheEntry where
  body : PartialEntry
  expiresAt : Int
deriving Repr, DecidableEq

/-- The requested cache key: `client_id`, `audience` and `scope` (the key
prefix of keys built by this system is always the fixed constant). -/
structure CacheKey where
  client_id : String
  audience : String
  scope : String
deriving Repr, DecidableEq

/-- Modelled from the spec: `CacheKey.prototype.toKey` serializes a key as
the four fields joined by `::`, in order key-prefix, `client_id`,
`audience`, `scope`. -/
def CacheKey.toKey (k : CacheKey) : String :=
  CACHE_KEY_PREF ++ "::" ++ k.client_id ++ "::" ++ k.audience ++ "::" ++ k.scope

/-- The result of parsing a serialized key: each positional field may be
missing when the string has fewer than four `::`-separated segments
(destructuring in JS yields `undefined` for missing segments). -/
structure ParsedCacheKey where
  pfx : Option String
  client_id : Option String
  audience : Option String
  scope : Option String
deriving Repr, DecidableEq

/-- Modelled from the spec: `CacheKey.fromKey` splits the serialized string
on the `::` delimiter and reads the fields positionally; parsing is
tolerant of missing segments. -/
def CacheKey.fromKey (s : String) : ParsedCacheKey :=
  let parts := splitColons s
  ⟨parts.get? 0, parts.get? 1, parts.get? 2, parts.get? 3⟩

/-- The storage backend's contents: an association list from opaque key
strings to persisted records, in enumeration order.  `set` on an existing
key updates it in place; `set` on a fresh key appends it. -/
abbrev Store := List (String × WrappedCacheEntry)

/-- Backend `get(key)`: the record stored under `key`, or nothing. -/
def storeGet (st : Store) (k : String) : Option WrappedCacheEntry :=
  (List.find? (fun p => p.1 == k) st).map Prod.snd

/-- Backend `set(key, record)`: updates the record already stored under the
key in place, or appends a fresh binding at the end of enumeration order. -/
def storeSet : Store → String → WrappedCacheEntry → Store
  | [], k, v => [(k, v)]
  | p :: st, k, v => if p.1 == k then (k, v) :: st else p :: storeSet st k v

/-- Backend `remove(key)`: drops the record stored under the key. -/
def storeRemove : Store → String → Store
  | [], _ => []
  | p :: st, k => if p.1 != k then p :: storeRemove st k else storeRemove st k

/-- Backend `allKeys()`: the stored keys in enumeration order. -/
def storeAllKeys (st : Store) : List String :=
  st.map Prod.fst

/-- Modelled from the spec: the key manifest's `add` is an idempotent
insert into the single persisted record of tracked keys; the record is
created lazily on the first `add` (missing `key-manifest.ts`). -/
def manifestAdd (m : Option (List String)) (k : String) : Option (List String) :=
  match m with
  | none => some [k]
  | some ks => some (if ks.contains k then ks else ks ++ [k])

/-- Modelled from the spec: the key manifest's `remove` is an idempotent
delete of one key from the record (missing `key-manifest.ts`). -/
def manifestRemove (m : Option (List String)) (k : String) : Option (List String) :=
  m.map (fun ks => ks.filter (fun x => x != k))

/-- The keys a manifest record tracks (none when the record is absent). -/
def manifestKeys (m : Option (List String)) : List String :=
  m.getD []

/-- The manager state: the backend contents, whether the backend provides a
native `allKeys` (fixed at construction; the manifest is instantiated
exactly when it does not), and the manifest record (meaningful only when
the manifest is active). -/
structure CacheState where
  store : Store
  hasAllKeys : Bool
  manifest : Option (List String)
deriving Repr, DecidableEq

/-- `getCacheKeys`: the manifest record's keys when the manifest is active
(nothing when the record is absent), otherwise the backend's own keys. -/
def getCacheKeys (s : CacheState) : Option (List String) :=
  if s.hasAllKeys then some (storeAllKeys s.store) else s.manifest

/-- The per-key filter inside `matchExistingCacheKey`: the parsed key's
key-prefix, `client_id` and `audience` must strictly equal the requested
ones, and the parsed scope must be truthy and its space-split token set
must contain every space-split token of the requested scope. -/
def matchPred (keyToMatch : CacheKey) (key : String) : Bool :=
  let cacheKey := CacheKey.fromKey key
  let scopeSet : List String :=
    match cacheKey.scope with
    | none => []
    | some s => if s == "" then [] else splitSpaces s
  let scopesToMatch := splitSpaces keyToMatch.scope
  let hasAllScopes :=
    jsTruthy cacheKey.scope &&
      scopesToMatch.foldl (fun acc current => acc && scopeSet.contains current) true
  (cacheKey.pfx == some CACHE_KEY_PREF) &&
    (cacheKey.client_id == some keyToMatch.client_id) &&
    (cacheKey.audience == some keyToMatch.audience) &&
    hasAllScopes

/-- `matchExistingCacheKey`: the first enumerated key passing the filter
(`filter(...)[0]` in the source; `undefined` when no key passes). -/
def matchExistingCacheKey (keyToMatch : CacheKey) (allKeys : List String) : Option String :=
  (allKeys.filter (matchPred keyToMatch)).head?

/-- `wrapCacheEntry`: pairs the entry with
`expiresAt = min(nowSeconds + expires_in, decodedToken.claims.exp)`. -/
def wrapCacheEntry (entry : CacheEntry) (nowSeconds : Int) : WrappedCacheEntry :=
  let expiresInTime := nowSeconds + entry.expires_in
  let expirySeconds := min expiresInTime entry.decodedToken.claims.exp
  ⟨entry.toBody, expirySeconds⟩

/-- The lookup phase of `get`: the exact record under the serialized
requested key if present; otherwise enumerate keys (returning nothing when
enumeration yields nothing), run the matching algorithm, and re-fetch by
the matched key (a `get` of `undefined` yields nothing). -/
def lookupWrappedEntry (s : CacheState) (cacheKey : CacheKey) : Option WrappedCacheEntry :=
  match storeGet s.store cacheKey.toKey with
  | some w => some w
  | none =>
    match getCacheKeys s with
    | none => none
    | some keys =>
      match matchExistingCacheKey cacheKey keys with
      | none => none
      | some matchedKey => storeGet s.store matchedKey

/-- `CacheManager.get`: look the entry up, then apply the expiry policy.
An entry is expired when `expiresAt - expiryAdjustmentSeconds` is strictly
below the current whole second.  An expired entry with a truthy
`refresh_token` is narrowed to a refresh-token-only body which is persisted
back under the serialized requested key and returned; an expired entry
without one causes removal of the serialized requested key from the backend
and, when the manifest is active, from the manifest, and nothing is
returned.  A live entry's body is returned unmodified. -/
def cacheManagerGet (s : CacheState) (cacheKey : CacheKey)
    (expiryAdjustmentSeconds : Int) (nowSeconds : Int) :
    Option PartialEntry × CacheState :=
  match lookupWrappedEntry s cacheKey with
  | none => (none, s)
  | some wrappedEntry =>
    if wrappedEntry.expiresAt - expiryAdjustmentSeconds < nowSeconds then
      if jsTruthy wrappedEntry.body.refresh_token then
        let narrowedEntry : WrappedCacheEntry :=
          ⟨refreshOnlyBody wrappedEntry.body.refresh_token, wrappedEntry.expiresAt⟩
        (some narrowedEntry.body,
          ⟨storeSet s.store cacheKey.toKey narrowedEntry, s.hasAllKeys, s.manifest⟩)
      else
        (none,
          ⟨storeRemove s.store cacheKey.toKey, s.hasAllKeys,
            if s.hasAllKeys then s.manifest
            else manifestRemove s.manifest cacheKey.toKey⟩)
    else
      (some wrappedEntry.body, s)

/-- `CacheManager.set`: derive the key from the entry's `client_id`,
`audience` and `scope`, wrap the entry, persist it under the derived key,
then register the key with the manifest when the manifest is active. -/
def cacheManagerSet (s : CacheState) (entry : CacheEntry) (nowSeconds : Int) : CacheState :=
  let cacheKey : CacheKey := ⟨entry.client_id, entry.audience, entry.scope⟩
  let wrappedEntry := wrapCacheEntry entry nowSeconds
  ⟨storeSet s.store cacheKey.toKey wrappedEntry, s.hasAllKeys,
    if s.hasAllKeys then s.manifest else manifestAdd s.manifest cacheKey.toKey⟩

/-- `CacheManager.clear` in the sequential model: when key enumeration
yields nothing, return unchanged; otherwise remove every enumerated key
from the backend and then clear the manifest record when the manifest is
active. -/
def cacheManagerClear (s : CacheState) : CacheState :=
  match getCacheKeys s with
  | none => s
  | some keys =>
    ⟨keys.foldl (fun st k => storeRemove st k) s.store, s.hasAllKeys,
      if s.hasAllKeys then s.manifest else none⟩

/-! ### Basic lemmas about the backend model -/

theorem storeGet_cons (p : String × WrappedCacheEntry) (st : Store) (k : String) :
    storeGet (p :: st) k = if p.1 == k then some p.2 else storeGet st k := by
  cases h : p.1 == k <;> simp [storeGet, List.find?_cons, h]

theorem storeGet_storeSet_self (st : Store) (k : String) (v : WrappedCacheEntry) :
    storeGet (storeSet st k v) k = some v := by
  induction st with
  | nil => simp [storeSet, storeGet_cons]
  | cons p st ih =>
    cases h : p.1 == k with
    | true => simp [storeSet, h, storeGet_cons]
    | false => simp [storeSet, h, storeGet_cons, ih]

theorem storeGet_storeSet_ne (st : Store) (k k' : String) (v : WrappedCacheEntry)
    (h : k' ≠ k) : storeGet (storeSet st k v) k' = storeGet st k' := by
  have hkk : (k == k') = false := beq_eq_false_iff_ne.mpr (Ne.symm h)
  induction st with
  | nil => simp [storeSet, storeGet_cons, storeGet, hkk]
  | cons p st ih =>
    cases h2 : p.1 == k with
    | true =>
      have hp : p.1 = k := beq_iff_eq.mp h2
      simp [storeSet, h2, storeGet_cons, hkk, hp]
    | false => simp [storeSet, h2, storeGet_cons, ih]

theorem storeGet_storeRemove (st : Store) (k rem : String) :
    storeGet (storeRemove st rem) k = if k = rem then none else storeGet st k := by
  induction st with
  | nil => split <;> simp [storeRemove, storeGet]
  | cons p st ih =>
    cases h : p.1 == rem with
    | true =>
      have hpr : p.1 = rem := beq_iff_eq.mp h
      have hb : (p.1 != rem) = false := by simp [bne, h]
      by_cases hk : k = rem
      · subst hk
        simp [storeRemove, hb, ih]
      · have hpk : (p.1 == k) = false :=
          beq_eq_false_iff_ne.mpr (by rw [hpr]; exact Ne.symm hk)
        simp [storeRemove, hb, ih, hk, storeGet_cons, hpk]
    | false =>
      have hb : (p.1 != rem) = true := by simp [bne, h]
      by_cases hk : k = rem
      · subst hk
        simp [storeRemove, hb, ih, storeGet_cons, h]
      · simp [storeRemove, hb, ih, hk, storeGet_cons]

theorem storeGet_foldl_remove_none (keys : List String) (st : Store) (k : String)
    (h : storeGet st k = none) :
    storeGet (keys.foldl (fun st k => storeRemove st k) st) k = none := by
  induction keys generalizing st with
  | nil => exact h
  | cons a keys ih =>
    apply ih
    rw [storeGet_storeRemove]
    split
    · rfl
    · exact h

theorem storeGet_removeList (keys : List String) (st : Store) (k : String) (hk : k ∈ keys) :
    storeGet (keys.foldl (fun st k => storeRemove st k) st) k = none := by
  induction keys generalizing st with
  | nil => cases hk
  | cons a keys ih =>
    rcases List.mem_cons.mp hk with h | h
    · subst h
      exact storeGet_foldl_remove_none keys _ k (by rw [storeGet_storeRemove]; simp)
    · exact ih (storeRemove st a) h

theorem cacheManagerGet_found (s : CacheState) (k : CacheKey) (adj now : Int)
    (w : WrappedCacheEntry) (hfound : lookupWrappedEntry s k = some w) :
    cacheManagerGet s k adj now =
      if w.expiresAt - adj < now then
        if jsTruthy w.body.refresh_token then
          (some (refreshOnlyBody w.body.refresh_token),
            ⟨storeSet s.store (CacheKey.toKey k)
                ⟨refreshOnlyBody w.body.refresh_token, w.expiresAt⟩,
              s.hasAllKeys, s.manifest⟩)
        else
          (none, ⟨storeRemove s.store (CacheKey.toKey k), s.hasAllKeys,
            if s.hasAllKeys then s.manifest
            else manifestRemove s.manifest (CacheKey.toKey k)⟩)
      else (some w.body, s) := by
  unfold cacheManagerGet
  rw [hfound]

/-! ### Claim theorems -/

/-- Claim C5: the persisted wrapped entry's `expiresAt` equals the minimum
of (current time in whole seconds plus `expires_in`) and
`decodedToken.claims.exp`; hence it is at most `now + expires_in` and at
most `decodedToken.claims.exp`. -/
theorem set_expiresAt_min (s : CacheState) (entry : CacheEntry) (nowSeconds : Int) :
    storeGet (cacheManagerSet s entry nowSeconds).store
        (CacheKey.toKey ⟨entry.client_id, entry.audience, entry.scope⟩) =
      some (wrapCacheEntry entry nowSeconds) ∧
    (wrapCacheEntry entry nowSeconds).expiresAt =
      min (nowSeconds + entry.expires_in) entry.decodedToken.claims.exp ∧
    (wrapCacheEntry entry nowSeconds).expiresAt ≤ nowSeconds + entry.expires_in ∧
    (wrapCacheEntry entry nowSeconds).expiresAt ≤ entry.decodedToken.claims.exp :=
  ⟨storeGet_storeSet_self _ _ _, rfl, min_le_left _ _, min_le_right _ _⟩

/-- Claim C4: `get` returns an absent result, never an error, on any miss:
when the exact lookup misses and key enumeration yields nothing, or no
enumerated key satisfies the matching predicate, or the matched key no
longer resolves to a stored record (`cacheManagerGet` is a total function,
so no error outcome exists in the model). -/
theorem get_miss_returns_nothing (s : CacheState) (k : CacheKey) (adj now : Int)
    (hmiss : storeGet s.store (CacheKey.toKey k) = none)
    (h : getCacheKeys s = none ∨
      (∃ keys, getCacheKeys s = some keys ∧ matchExistingCacheKey k keys = none) ∨
      (∃ keys mKey, getCacheKeys s = some keys ∧ matchExistingCacheKey k keys = some mKey ∧
        storeGet s.store mKey = none)) :
    cacheManagerGet s k adj now = (none, s) := by
  have hlook : lookupWrappedEntry s k = none := by
    unfold lookupWrappedEntry
    rw [hmiss]
    rcases h with h | ⟨keys, hk, hm⟩ | ⟨keys, mKey, hk, hm, hg⟩
    · simp [h]
    · simp [hk, hm]
    · simp [hk, hm, hg]
  unfold cacheManagerGet
  rw [hlook]

/-- Witness for C4 at a concrete input: empty backend without native key
enumeration and no manifest record. -/
theorem get_miss_returns_nothing_witness :
    cacheManagerGet ⟨[], false, none⟩ ⟨"c1", "a1", "read"⟩ 0 10 =
      (none, ⟨[], false, none⟩) :=
  get_miss_returns_nothing ⟨[], false, none⟩ ⟨"c1", "a1", "read"⟩ 0 10 (by decide)
    (Or.inl (by decide))

/-- Claim C9: the expiry test is strict — a found entry whose adjusted
expiry `expiresAt - adj` is at least the current second (in particular,
equal to it) is served as-is with no state change, while one whose adjusted
expiry is strictly below the current second (without a truthy refresh
token) yields nothing. -/
theorem get_expiry_is_strict (s : CacheState) (k : CacheKey) (adj now : Int)
    (w : WrappedCacheEntry)
    (hfound : lookupWrappedEntry s k = some w) :
    (now ≤ w.expiresAt - adj → cacheManagerGet s k adj now = (some w.body, s)) ∧
    (w.expiresAt - adj < now → jsTruthy w.body.refresh_token = false →
      (cacheManagerGet s k adj now).1 = none) := by
  constructor
  · intro hle
    unfold cacheManagerGet
    rw [hfound]
    simp [not_lt.mpr hle]
  · intro hlt hrt
    unfold cacheManagerGet
    rw [hfound]
    simp [hlt, hrt]

/-- Fixture for the C9 witness: a live wrapped entry whose adjusted expiry
equals the current second (10). -/
def wBoundary : WrappedCacheEntry :=
  ⟨⟨some "c1", some "a1", some "read", some 3600, some ⟨⟨10⟩⟩, some "at",
    some "it", none⟩, 10⟩

/-- Fixture for the C9 witness: a backend holding `wBoundary` under the
serialized key requested by the witness. -/
def sBoundary : CacheState :=
  ⟨[("@@auth0spajs@@::c1::a1::read", wBoundary)], true, none⟩

/-- Witness for C9 at a concrete input: an entry whose adjusted expiry
equals the current second is returned in full with the state unchanged. -/
theorem get_expiry_is_strict_witness :
    cacheManagerGet sBoundary ⟨"c1", "a1", "read"⟩ 0 10 = (some wBoundary.body, sBoundary) :=
  (get_expiry_is_strict sBoundary ⟨"c1", "a1", "read"⟩ 0 10 wBoundary (by decide)).1
    (by decide)

/-- Claim C6: the matching algorithm returns the first satisfying key in
enumeration order, with no secondary tie-break: whenever a key `x`
satisfies the predicate and every key listed before it does not, the
algorithm returns `x`, irrespective of later keys (matching or not). -/
theorem match_first_in_order (k : CacheKey) (l₁ l₂ : List String) (x : String)
    (hx : matchPred k x = true) (h₁ : ∀ y ∈ l₁, matchPred k y = false) :
    matchExistingCacheKey k (l₁ ++ x :: l₂) = some x := by
  unfold matchExistingCacheKey
  rw [List.filter_append]
  have hnil : l₁.filter (matchPred k) = [] := by
    rw [List.filter_eq_nil_iff]
    intro a ha
    simp [h₁ a ha]
  rw [hnil]
  simp [List.filter_cons, hx]

/-- Witness for C6 at a concrete input: two enumerated keys satisfy the
predicate and the first of them (after a non-matching key) is returned. -/
theorem match_first_in_order_witness :
    matchExistingCacheKey ⟨"c1", "a1", "read"⟩
        (["other"] ++ "@@auth0spajs@@::c1::a1::read" ::
          ["@@auth0spajs@@::c1::a1::read write"]) =
      some "@@auth0spajs@@::c1::a1::read" :=
  match_first_in_order ⟨"c1", "a1", "read"⟩ ["other"] ["@@auth0spajs@@::c1::a1::read write"]
    "@@auth0spajs@@::c1::a1::read" (by decide) (by decide)

theorem not_mem_manifestRemove (m : Option (List String)) (k : String) :
    k ∉ manifestKeys (manifestRemove m k) := by
  cases m with
  | none => simp [manifestRemove, manifestKeys]
  | some ks => simp [manifestRemove, manifestKeys, List.mem_filter]

/-- Fixture for the C1 counterexample: an expired wrapped entry without a
refresh token. -/
def wStale : WrappedCacheEntry :=
  ⟨⟨some "c1", some "a1", some "read write", some 3600, some ⟨⟨5⟩⟩, some "at",
    some "it", none⟩, 5⟩

/-- Fixture for the C1 counterexample: `wStale` is stored only under the
broader-scope key, so a request for scope `read` finds it via matching. -/
def sStaleMatched : CacheState :=
  ⟨[("@@auth0spajs@@::c1::a1::read write", wStale)], true, none⟩

/-- Claim C1 (counterexample): a `get` that finds the expired, refresh-less
entry via the matching algorithm (under a key other than the serialized
requested key) returns nothing, but the backend STILL holds the key under
which the entry was stored — the purge targets the requested key only. -/
theorem get_expired_purge_counterexample :
    storeGet sStaleMatched.store "@@auth0spajs@@::c1::a1::read write" = some wStale ∧
    lookupWrappedEntry sStaleMatched ⟨"c1", "a1", "read"⟩ = some wStale ∧
    wStale.expiresAt - 0 < 10 ∧
    wStale.body.refresh_token = none ∧
    (cacheManagerGet sStaleMatched ⟨"c1", "a1", "read"⟩ 0 10).1 = none ∧
    storeGet (cacheManagerGet sStaleMatched ⟨"c1", "a1", "read"⟩ 0 10).2.store
      "@@auth0spajs@@::c1::a1::read write" = some wStale := by
  decide

/-- Claim C1 (amended): when `get` finds a wrapped entry whose adjusted
expiry is past and whose body has no `refresh_token` field, it returns
nothing, and afterwards the backend no longer holds the SERIALIZED
REQUESTED key and the manifest (if active) no longer lists that requested
key (an entry stored under a different, matched key is not purged). -/
theorem get_expired_purge (s : CacheState) (k : CacheKey) (adj now : Int)
    (w : WrappedCacheEntry)
    (hfound : lookupWrappedEntry s k = some w)
    (hexp : w.expiresAt - adj < now)
    (hnort : w.body.refresh_token = none) :
    (cacheManagerGet s k adj now).1 = none ∧
    storeGet (cacheManagerGet s k adj now).2.store (CacheKey.toKey k) = none ∧
    (s.hasAllKeys = false →
      CacheKey.toKey k ∉ manifestKeys (cacheManagerGet s k adj now).2.manifest) := by
  have hrt : jsTruthy w.body.refresh_token = false := by rw [hnort]; rfl
  rw [cacheManagerGet_found s k adj now w hfound, if_pos hexp, if_neg (by simp [hrt])]
  refine ⟨rfl, ?_, ?_⟩
  · rw [storeGet_storeRemove]
    simp
  · intro hact
    simp only [hact, Bool.false_eq_true, if_false]
    exact not_mem_manifestRemove s.manifest (CacheKey.toKey k)

/-- Fixture for the C1 witness: the stale entry is stored under exactly the
serialized requested key, with an active manifest listing it. -/
def sStaleExact : CacheState :=
  ⟨[("@@auth0spajs@@::c1::a1::read write", wStale)], false,
    some ["@@auth0spajs@@::c1::a1::read write"]⟩

/-- Witness for the amended C1 at a concrete input: exact-key hit on an
expired refresh-less entry purges the requested key from the backend and
from the active manifest. -/
theorem get_expired_purge_witness :
    (cacheManagerGet sStaleExact ⟨"c1", "a1", "read write"⟩ 0 10).1 = none ∧
    storeGet (cacheManagerGet sStaleExact ⟨"c1", "a1", "read write"⟩ 0 10).2.store
      (CacheKey.toKey ⟨"c1", "a1", "read write"⟩) = none ∧
    CacheKey.toKey ⟨"c1", "a1", "read write"⟩ ∉
      manifestKeys (cacheManagerGet sStaleExact ⟨"c1", "a1", "read write"⟩ 0 10).2.manifest :=
  have h := get_expired_purge sStaleExact ⟨"c1", "a1", "read write"⟩ 0 10 wStale
    (by decide) (by decide) (by decide)
  ⟨h.1, h.2.1, h.2.2 rfl⟩

/-- Fixture for the C2 counterexample: an expired wrapped entry whose body
carries a `refresh_token` field holding the empty string. -/
def wEmptyRT : WrappedCacheEntry :=
  ⟨⟨some "c1", some "a1", some "read", some 3600, some ⟨⟨5⟩⟩, some "at",
    some "it", some ""⟩, 5⟩

/-- Fixture for the C2 counterexample: `wEmptyRT` stored under exactly the
serialized requested key. -/
def sEmptyRT : CacheState :=
  ⟨[("@@auth0spajs@@::c1::a1::read", wEmptyRT)], true, none⟩

/-- Claim C2 (counterexample): the expired entry's body carries a
`refresh_token` field (the empty string, which is falsy in JS), yet `get`
returns nothing and DELETES the record instead of narrowing it — the code
tests JS truthiness of the field, not its presence. -/
theorem get_expired_refresh_counterexample :
    storeGet sEmptyRT.store (CacheKey.toKey ⟨"c1", "a1", "read"⟩) = some wEmptyRT ∧
    wEmptyRT.expiresAt - 0 < 10 ∧
    wEmptyRT.body.refresh_token = some "" ∧
    (cacheManagerGet sEmptyRT ⟨"c1", "a1", "read"⟩ 0 10).1 = none ∧
    storeGet (cacheManagerGet sEmptyRT ⟨"c1", "a1", "read"⟩ 0 10).2.store
      (CacheKey.toKey ⟨"c1", "a1", "read"⟩) = none := by
  decide

/-- Claim C2 (amended): when `get` finds a wrapped entry whose adjusted
expiry is past and whose body carries a NON-EMPTY `refresh_token`, it
returns a body containing only that refresh token, and the record under the
originally requested key is overwritten to a wrapped entry whose body
contains only that refresh token. -/
theorem get_expired_refresh (s : CacheState) (k : CacheKey) (adj now : Int)
    (w : WrappedCacheEntry) (rt : String)
    (hfound : lookupWrappedEntry s k = some w)
    (hexp : w.expiresAt - adj < now)
    (hrt : w.body.refresh_token = some rt) (hne : rt ≠ "") :
    (cacheManagerGet s k adj now).1 =
      some ⟨none, none, none, none, none, none, none, some rt⟩ ∧
    storeGet (cacheManagerGet s k adj now).2.store (CacheKey.toKey k) =
      some ⟨⟨none, none, none, none, none, none, none, some rt⟩, w.expiresAt⟩ := by
  have htruthy : jsTruthy w.body.refresh_token = true := by
    rw [hrt]
    simp [jsTruthy, hne]
  rw [cacheManagerGet_found s k adj now w hfound, if_pos hexp, if_pos htruthy]
  refine ⟨?_, ?_⟩
  · simp [refreshOnlyBody, hrt]
  · rw [storeGet_storeSet_self]
    simp [refreshOnlyBody, hrt]

/-- Fixture for the C2 witness: an expired wrapped entry with a non-empty
refresh token, stored under exactly the serialized requested key. -/
def wLiveRT : WrappedCacheEntry :=
  ⟨⟨some "c1", some "a1", some "read", some 3600, some ⟨⟨5⟩⟩, some "at",
    some "it", some "r1"⟩, 5⟩

/-- Fixture for the C2 witness. -/
def sLiveRT : CacheState :=
  ⟨[("@@auth0spajs@@::c1::a1::read", wLiveRT)], true, none⟩

/-- Witness for the amended C2 at a concrete input: the expired entry with
`refresh_token = "r1"` is narrowed to a refresh-only body which is both
returned and persisted under the requested key. -/
theorem get_expired_refresh_witness :
    (cacheManagerGet sLiveRT ⟨"c1", "a1", "read"⟩ 0 10).1 =
      some ⟨none, none, none, none, none, none, none, some "r1"⟩ ∧
    storeGet (cacheManagerGet sLiveRT ⟨"c1", "a1", "read"⟩ 0 10).2.store
      (CacheKey.toKey ⟨"c1", "a1", "read"⟩) =
      some ⟨⟨none, none, none, none, none, none, none, some "r1"⟩, 5⟩ :=
  get_expired_refresh sLiveRT ⟨"c1", "a1", "read"⟩ 0 10 wLiveRT "r1"
    (by decide) (by decide) (by decide) (by decide)

/-- Claim C10: when the entry is found only via the matching algorithm, the
expiry-path mutations target the originally requested key: the narrowed
record is written under the requested key while the record under the
matched key is unchanged, and after the purge branch the record under the
matched key is still present. -/
theorem get_matched_mutations_hit_requested_key (s : CacheState) (k : CacheKey)
    (adj now : Int) (keys : List String) (mKey : String) (w : WrappedCacheEntry)
    (hmiss : storeGet s.store (CacheKey.toKey k) = none)
    (hkeys : getCacheKeys s = some keys)
    (hmatch : matchExistingCacheKey k keys = some mKey)
    (hfetch : storeGet s.store mKey = some w)
    (hexp : w.expiresAt - adj < now) :
    (∀ rt, w.body.refresh_token = some rt → rt ≠ "" →
      storeGet (cacheManagerGet s k adj now).2.store mKey = some w ∧
      storeGet (cacheManagerGet s k adj now).2.store (CacheKey.toKey k) =
        some ⟨⟨none, none, none, none, none, none, none, some rt⟩, w.expiresAt⟩) ∧
    (jsTruthy w.body.refresh_token = false →
      storeGet (cacheManagerGet s k adj now).2.store mKey = some w) := by
  have hlook : lookupWrappedEntry s k = some w := by
    unfold lookupWrappedEntry
    rw [hmiss]
    simp [hkeys, hmatch, hfetch]
  have hne : mKey ≠ CacheKey.toKey k := by
    intro e
    rw [e, hmiss] at hfetch
    cases hfetch
  constructor
  · intro rt hrt hrtne
    have htruthy : jsTruthy w.body.refresh_token = true := by
      rw [hrt]
      simp [jsTruthy, hrtne]
    rw [cacheManagerGet_found s k adj now w hlook, if_pos hexp, if_pos htruthy]
    refine ⟨?_, ?_⟩
    · rw [storeGet_storeSet_ne _ _ _ _ hne]
      exact hfetch
    · rw [storeGet_storeSet_self]
      simp [refreshOnlyBody, hrt]
  · intro hrt
    rw [cacheManagerGet_found s k adj now w hlook, if_pos hexp, if_neg (by simp [hrt])]
    rw [storeGet_storeRemove]
    rw [if_neg hne]
    exact hfetch

/-- Fixture for the C10 witness: an expired entry with a non-empty refresh
token stored only under a broader-scope key. -/
def wMatchedRT : WrappedCacheEntry :=
  ⟨⟨some "c1", some "a1", some "read write", some 3600, some ⟨⟨5⟩⟩, some "at",
    some "it", some "r1"⟩, 5⟩

/-- Fixture for the C10 witness. -/
def sMatchedRT : CacheState :=
  ⟨[("@@auth0spajs@@::c1::a1::read write", wMatchedRT)], true, none⟩

/-- Witness for C10 at a concrete input: after refresh narrowing, the
matched key still holds the original record and the requested key holds the
narrowed one. -/
theorem get_matched_mutations_hit_requested_key_witness :
    storeGet (cacheManagerGet sMatchedRT ⟨"c1", "a1", "read"⟩ 0 10).2.store
      "@@auth0spajs@@::c1::a1::read write" = some wMatchedRT ∧
    storeGet (cacheManagerGet sMatchedRT ⟨"c1", "a1", "read"⟩ 0 10).2.store
      (CacheKey.toKey ⟨"c1", "a1", "read"⟩) =
      some ⟨⟨none, none, none, none, none, none, none, some "r1"⟩, 5⟩ :=
  (get_matched_mutations_hit_requested_key sMatchedRT ⟨"c1", "a1", "read"⟩ 0 10
      ["@@auth0spajs@@::c1::a1::read write"] "@@auth0spajs@@::c1::a1::read write"
      wMatchedRT (by decide) (by decide) (by decide) (by decide) (by decide)).1
    "r1" (by decide) (by decide)

/-- The key `set` derives from an entry (`new CacheKey({client_id, scope,
audience})` followed by `toKey`). -/
def entryKey (entry : CacheEntry) : String :=
  CacheKey.toKey ⟨entry.client_id, entry.audience, entry.scope⟩

/-- Claim C7: with the manifest active (no native `allKeys`), `set`
persists the wrapped entry under the derived key and registers that key
with the manifest: the tracked key set afterwards is exactly the prior set
plus the derived key — unchanged when already tracked, extended by exactly
that one key otherwise. -/
theorem manifestAdd_spec (m : Option (List String)) (k : String) :
    ∃ ks', manifestAdd m k = some ks' ∧
      (∀ x, x ∈ ks' ↔ x ∈ manifestKeys m ∨ x = k) ∧
      (k ∈ manifestKeys m → ks' = manifestKeys m) ∧
      (k ∉ manifestKeys m → ks' = manifestKeys m ++ [k]) := by
  cases m with
  | none =>
    refine ⟨[k], rfl, ?_, ?_, ?_⟩
    · intro x
      simp [manifestKeys]
    · intro hmem
      simp [manifestKeys] at hmem
    · intro _
      simp [manifestKeys]
  | some ks =>
    by_cases hc : k ∈ ks
    · refine ⟨ks, ?_, ?_, ?_, ?_⟩
      · simp [manifestAdd, hc]
      · intro x
        simp only [manifestKeys, Option.getD_some]
        constructor
        · exact fun hx => Or.inl hx
        · rintro (hx | hx)
          · exact hx
          · rw [hx]; exact hc
      · intro _
        simp [manifestKeys]
      · intro hmem
        simp [manifestKeys] at hmem
        exact absurd hc hmem
    · refine ⟨ks ++ [k], ?_, ?_, ?_, ?_⟩
      · simp [manifestAdd, hc]
      · intro x
        simp [manifestKeys, List.mem_append]
      · intro hmem
        simp [manifestKeys] at hmem
        exact absurd hmem hc
      · intro _
        simp [manifestKeys]

theorem set_registers_key_in_manifest (s : CacheState) (entry : CacheEntry) (now : Int)
    (h : s.hasAllKeys = false) :
    storeGet (cacheManagerSet s entry now).store (entryKey entry) =
      some (wrapCacheEntry entry now) ∧
    ∃ ks', (cacheManagerSet s entry now).manifest = some ks' ∧
      (∀ x, x ∈ ks' ↔ x ∈ manifestKeys s.manifest ∨ x = entryKey entry) ∧
      (entryKey entry ∈ manifestKeys s.manifest → ks' = manifestKeys s.manifest) ∧
      (entryKey entry ∉ manifestKeys s.manifest →
        ks' = manifestKeys s.manifest ++ [entryKey entry]) := by
  refine ⟨storeGet_storeSet_self _ _ _, ?_⟩
  have hman : (cacheManagerSet s entry now).manifest =
      manifestAdd s.manifest (entryKey entry) := by
    simp [cacheManagerSet, h, entryKey]
  rw [hman]
  exact manifestAdd_spec s.manifest (entryKey entry)

/-- Fixture for the C7 witness: an entry written against a backend without
native enumeration whose manifest already tracks an unrelated key. -/
def eManifest : CacheEntry := ⟨"c1", "a1", "read", 100, ⟨⟨50⟩⟩, "at", "it", none⟩

/-- Fixture for the C7 witness. -/
def sManifest : CacheState := ⟨[], false, some ["@@auth0spajs@@::c1::a1::other"]⟩

/-- Witness for C7 at a concrete input: the manifest grows by exactly the
derived key. -/
theorem set_registers_key_in_manifest_witness :
    storeGet (cacheManagerSet sManifest eManifest 0).store (entryKey eManifest) =
      some (wrapCacheEntry eManifest 0) ∧
    (cacheManagerSet sManifest eManifest 0).manifest =
      some (manifestKeys sManifest.manifest ++ [entryKey eManifest]) :=
  have h := set_registers_key_in_manifest sManifest eManifest 0 (by decide)
  ⟨h.1, by
    obtain ⟨ks', hk1, _, _, hk4⟩ := h.2
    rw [hk1, hk4 (by decide)]⟩

/-- Claim C8: in the sequential model, after `clear` completes the backend
holds none of the keys that were enumerated, and when the manifest is
active its record is deleted (when enumeration yields nothing, nothing was
enumerated and an active manifest's record was already absent). -/
theorem clear_removes_enumerated_keys (s : CacheState) :
    (∀ k ∈ (getCacheKeys s).getD [], storeGet (cacheManagerClear s).store k = none) ∧
    (s.hasAllKeys = false → (cacheManagerClear s).manifest = none) := by
  unfold cacheManagerClear
  cases hk : getCacheKeys s with
  | none =>
    constructor
    · intro k hkmem
      simp at hkmem
    · intro hact
      unfold getCacheKeys at hk
      rw [hact] at hk
      simpa using hk
  | some keys =>
    constructor
    · intro k hkmem
      simp only [Option.getD_some] at hkmem
      exact storeGet_removeList keys s.store k hkmem
    · intro hact
      simp [hact]

/-- Fixture for the C8 witness: one stored record tracked by an active
manifest. -/
def wTracked : WrappedCacheEntry :=
  ⟨⟨some "c1", some "a1", some "read", some 100, some ⟨⟨50⟩⟩, some "at",
    some "it", none⟩, 50⟩

/-- Fixture for the C8 witness. -/
def sTracked : CacheState :=
  ⟨[("@@auth0spajs@@::c1::a1::read", wTracked)], false,
    some ["@@auth0spajs@@::c1::a1::read"]⟩

/-- Witness for C8 at a concrete input: `clear` empties both the backend
entry and the manifest record. -/
theorem clear_removes_enumerated_keys_witness :
    storeGet (cacheManagerClear sTracked).store "@@auth0spajs@@::c1::a1::read" = none ∧
    (cacheManagerClear sTracked).manifest = none :=
  ⟨(clear_removes_enumerated_keys sTracked).1 "@@auth0spajs@@::c1::a1::read" (by decide),
    (clear_removes_enumerated_keys sTracked).2 (by decide)⟩

theorem foldl_and_eq_all (p : String → Bool) (l : List String) (b : Bool) :
    l.foldl (fun acc c => acc && p c) b = (b && l.all p) := by
  induction l generalizing b with
  | nil => simp
  | cons x xs ih => simp [ih, Bool.and_assoc]

/-- Claim C3 (counterexample): request scope `""` against the stored key
`"@@auth0spajs@@::c1::a1::"` (parsed scope: the empty string).  The parsed
key prefix, `client_id` and `audience` all equal the requested ones and
every space-delimited token of the requested scope (the single empty token)
is among the candidate's space-delimited scope tokens (also the single
empty token), yet the algorithm does not select the key: the source
additionally requires the candidate's scope to be JS-truthy (non-empty). -/
theorem match_superset_rule_counterexample :
    (CacheKey.fromKey "@@auth0spajs@@::c1::a1::").pfx = some CACHE_KEY_PREF ∧
    (CacheKey.fromKey "@@auth0spajs@@::c1::a1::").client_id =
      some (CacheKey.mk "c1" "a1" "").client_id ∧
    (CacheKey.fromKey "@@auth0spajs@@::c1::a1::").audience =
      some (CacheKey.mk "c1" "a1" "").audience ∧
    (CacheKey.fromKey "@@auth0spajs@@::c1::a1::").scope = some "" ∧
    (∀ t ∈ splitSpaces (CacheKey.mk "c1" "a1" "").scope, t ∈ splitSpaces "") ∧
    matchPred ⟨"c1", "a1", ""⟩ "@@auth0spajs@@::c1::a1::" = false ∧
    matchExistingCacheKey ⟨"c1", "a1", ""⟩ ["@@auth0spajs@@::c1::a1::"] = none := by
  decide

/-- Claim C3 (amended): the matching algorithm selects an enumerated key
if and only if its parsed key prefix equals the fixed constant, its parsed
`client_id` and `audience` equal the requested ones, and its parsed scope
is present and NON-EMPTY with a space-delimited token set containing every
space-delimited token of the requested scope.  (In particular a stored
scope `"a b c"` matches a request for `"a b"` but not `"a d"`, and a key
differing in audience or client never matches.) -/
theorem match_superset_rule (keyToMatch : CacheKey) (key : String) :
    matchPred keyToMatch key = true ↔
      (CacheKey.fromKey key).pfx = some CACHE_KEY_PREF ∧
      (CacheKey.fromKey key).client_id = some keyToMatch.client_id ∧
      (CacheKey.fromKey key).audience = some keyToMatch.audience ∧
      ∃ sc, (CacheKey.fromKey key).scope = some sc ∧ sc ≠ "" ∧
        ∀ t ∈ splitSpaces keyToMatch.scope, t ∈ splitSpaces sc := by
  cases hsc : (CacheKey.fromKey key).scope with
  | none => simp [matchPred, hsc, jsTruthy]
  | some sc =>
    by_cases hemp : sc = ""
    · subst hemp
      simp [matchPred, hsc, jsTruthy]
    · have hbe : (sc == "") = false := by simpa using hemp
      simp [matchPred, hsc, jsTruthy, hbe, hemp, foldl_and_eq_all, List.all_eq_true,
        and_assoc]

/-- Witness for the amended C3 at concrete inputs: the broader stored scope
`"a b c"` is selected for requested scope `"a b"`, satisfying the amended
conditions. -/
theorem match_superset_rule_witness :
    matchPred ⟨"c1", "a1", "a b"⟩ "@@auth0spajs@@::c1::a1::a b c" = true :=
  (match_superset_rule ⟨"c1", "a1", "a b"⟩ "@@auth0spajs@@::c1::a1::a b c").mpr
    (by refine ⟨by decide, by decide, by decide, "a b c", by decide, by decide, ?_⟩
        decide)
